import Mathlib
/-!
Verification of the templating and macro-execution core of the dbt
repository (src/core/dbt/clients/jinja.py, src/core/dbt/context/base.py,
src/core/dbt/context/common.py) against its natural-language specification.

The Python code is shallowly embedded: Python dicts become association
lists with last-write-wins insertion (`dget` / `dins` / `dupd`), raised
exceptions become `Except` results, and external collaborators (the jinja
engine's `Undefined` base class, the Python `json` module, the
`dbt.exceptions` class hierarchy and `dbt.utils.merge`, which are not part
of the provided sources) are modelled from their documented behavior or
from the spec, as noted on each definition.
-/
namespace Dbt
/-- A node as the jinja client sees it: its owning package and its name
(src/core/dbt/clients/jinja.py uses `node.package_name` and `node.name`). -/
structure Node where
  package_name : String
  name : String
deriving DecidableEq, Repr
/-- A Python runtime value, as far as the claims need one.  `set` stands for
any value the stdlib `json` encoder cannot serialize. -/
inductive PyVal where
  | none
  | bool (b : Bool)
  | int (n : Int)
  | str (s : String)
  | list (xs : List PyVal)
  | set (xs : List PyVal)
/-- Modelled from the spec: `dbt.exceptions.CompilationException` (the file
`dbt/exceptions.py` is not among the provided sources).  Per the spec it is
"a compilation-exception carrying a growing stack of node frames (innermost
first)": a message, the node it was first attributed to, and the stack of
caller nodes appended by enclosing macro handlers. -/
structure CompilationError where
  msg : String
  node : Option Node
  stack : List Node
deriving DecidableEq, Repr
/-- The error kinds the embedded code can signal.  `internal` models
`dbt.exceptions.InternalException` (a programming error, per the spec
"fatal, internal, never user-facing-recoverable"), `compilation` models
`dbt.exceptions.CompilationException`, and `undefined` models
`jinja2.exceptions.UndefinedError` as raised by `undefined_error` in
src/core/dbt/clients/jinja.py. -/
inductive DbtError where
  | internal (msg : String)
  | compilation (e : CompilationError)
  | undefined (msg : String)
deriving DecidableEq, Repr
/-- Modelled from the spec: `dbt.exceptions.raise_compiler_error(msg, node)`
(not among the provided sources) raises a `CompilationException` carrying the
message and the node, with an empty caller stack. -/
def raise_compiler_error (msg : String) (node : Option Node) : DbtError :=
  DbtError.compilation ⟨msg, node, []⟩
/-! ## Association-list model of Python dicts

Python dicts keep insertion order; assigning to an existing key replaces its
value in place.  `dget` is `d[k]` (as an `Option`), `dins` is `d[k] = v`,
`dupd` is `d.update(e)`. -/
/-- Lookup in an insertion-ordered dict. -/
def dget {α : Type} : List (String × α) → String → Option α
  | [], _ => Option.none
  | e :: rest, k => if e.1 = k then Option.some e.2 else dget rest k
/-- Assignment `d[k] = v`: replace the value in place if the key exists,
otherwise append the new binding. -/
def dins {α : Type} : List (String × α) → String → α → List (String × α)
  | [], k, v => [(k, v)]
  | e :: rest, k, v =>
    if e.1 = k then (k, v) :: rest else e :: dins rest k v
/-- `d.update(es)`: assign every binding of `es` into `d`, left to right. -/
def dupd {α : Type} (d es : List (String × α)) : List (String × α) :=
  es.foldl (fun a e => dins a e.1 e.2) d
/-- The value the last binding of `es` with key `k` carries, if any. -/
def lastVal {α : Type} : List (String × α) → String → Option α
  | [], _ => Option.none
  | e :: rest, k =>
    match lastVal rest k with
    | Option.some v => Option.some v
    | Option.none => if e.1 = k then Option.some e.2 else Option.none
/-! ## Macro execution engine (src/core/dbt/clients/jinja.py)

`BaseMacroGenerator.call_macro` and `MacroGenerator.call_macro` invoke the
compiled jinja callable inside `exception_handler()`.  The compiled callable
is an external collaborator (the jinja engine), so a single invocation is
modelled by the outcome it produces: a normal value, a raised
`dbt.exceptions.MacroReturn` carrying a value, a raised `TypeError` or
`jinja2.exceptions.TemplateRuntimeError` carrying a message, or a raised
`CompilationException` bubbling up from a nested macro call. -/
/-- What one invocation of the underlying compiled macro callable does. -/
inductive MacroOutcome (V : Type) where
  | value (v : V)
  | macroReturn (v : V)
  | typeError (msg : String)
  | templateRuntimeError (msg : String)
  | compilationError (e : CompilationError)
deriving DecidableEq, Repr
/-- `BaseMacroGenerator.call_macro` (src/core/dbt/clients/jinja.py lines
144-157): a `None` context is an `InternalException`; otherwise the macro is
invoked, a `MacroReturn` is converted into a normal result, and the base
`exception_handler` (lines 137-142) turns `TypeError` /
`TemplateRuntimeError` into a compiler error with no node.  Any other
exception (e.g. a `CompilationException` from a nested call) propagates. -/
def call_macro_base {C V : Type} (ctx : Option C) (run : MacroOutcome V) :
    Except DbtError V :=
  match ctx with
  | Option.none => Except.error (DbtError.internal "Context is still None in call_macro!")
  | Option.some _ =>
    match run with
    | MacroOutcome.value v => Except.ok v
    | MacroOutcome.macroReturn v => Except.ok v
    | MacroOutcome.typeError m => Except.error (raise_compiler_error m Option.none)
    | MacroOutcome.templateRuntimeError m => Except.error (raise_compiler_error m Option.none)
    | MacroOutcome.compilationError e => Except.error (DbtError.compilation e)
/-- `MacroGenerator.call_macro`: the same `call_macro` body, but run under
`MacroGenerator.exception_handler` (src/core/dbt/clients/jinja.py lines
171-179), which attributes `TypeError` / `TemplateRuntimeError` to the
generator's node and appends the node to the stack of a passing
`CompilationException` before re-raising it. -/
def call_macro_mg {C V : Type} (node : Node) (ctx : Option C) (run : MacroOutcome V) :
    Except DbtError V :=
  match ctx with
  | Option.none => Except.error (DbtError.internal "Context is still None in call_macro!")
  | Option.some _ =>
    match run with
    | MacroOutcome.value v => Except.ok v
    | MacroOutcome.macroReturn v => Except.ok v
    | MacroOutcome.typeError m => Except.error (raise_compiler_error m (Option.some node))
    | MacroOutcome.templateRuntimeError m =>
        Except.error (raise_compiler_error m (Option.some node))
    | MacroOutcome.compilationError e =>
        Except.error (DbtError.compilation { e with stack := e.stack ++ [node] })
/-! ## Undefined-reference capture mode (src/core/dbt/clients/jinja.py,
`create_macro_capture_env` / `ParserMacroCapture`)

`ParserMacroCapture` subclasses `jinja2.Undefined`.  Its Python state is the
bound node, `package_name` (initialised to `node.package_name`), `name`
(the dotted-path segment last accessed), and — inherited from
`jinja2.Undefined.__init__` via `super().__init__(hint=hint, name=name)` —
the engine's private `_undefined_name`, which dbt's `__getattr__` never
updates. -/
/-- The state of one `ParserMacroCapture` placeholder. -/
structure Capture where
  node : Node
  package_name : String
  name : String
  /-- jinja's `_undefined_name`, fixed at construction time. -/
  undefined_name : String
deriving DecidableEq, Repr
/-- `ParserMacroCapture.__init__(name=name)` for a placeholder freshly created
by the engine for undefined name `name` while rendering `node`. -/
def mkCapture (node : Node) (name : String) : Capture :=
  ⟨node, node.package_name, name, name⟩
/-- `_is_dunder_name` (src/core/dbt/clients/jinja.py lines 260-261):
`name.startswith('__') and name.endswith('__')`, stated over the string's
character list. -/
def _is_dunder_name (s : String) : Bool :=
  (s.data.take 2 == ['_', '_']) && (s.data.reverse.take 2 == ['_', '_'])
/-- A Python `AttributeError`, as `ParserMacroCapture.__getattr__` raises it
for the guarded names. -/
inductive PyError where
  | attributeError (msg : String)
deriving DecidableEq, Repr
/-- `ParserMacroCapture.__getattr__` (lines 301-311): `'name'` and dunder
names raise `AttributeError`; any other attribute access slides the path
window — the previous `name` becomes the `package_name` and the accessed
attribute becomes the `name` — and yields the placeholder continuing the
chain. -/
def capture_getattr (c : Capture) (attr : String) : Except PyError Capture :=
  if attr = "name" ∨ _is_dunder_name attr then
    Except.error (PyError.attributeError
      ("'ParserMacroCapture' object has no attribute '" ++ attr ++ "'"))
  else
    Except.ok { c with package_name := c.name, name := attr }
/-- `ParserMacroCapture.__call__` (lines 313-314): calling the placeholder
with any arguments returns the placeholder itself. -/
def capture_call (c : Capture) (args : List PyVal) : Capture := c
/-- `ParserMacroCapture.__getitem__` (lines 296-299): subscripting propagates
the placeholder. -/
def capture_getitem (c : Capture) (key : PyVal) : Capture := c
/-- `ParserMacroCapture.__deepcopy__` (lines 280-294): deep-copying the
placeholder calls `dbt.exceptions.raise_compiler_error` with the message
`"{!r} is undefined".format(self.name)` — naming the last accessed segment —
and the node under analysis. -/
def capture_deepcopy (c : Capture) : Except DbtError Capture :=
  Except.error (raise_compiler_error ("'" ++ c.name ++ "' is undefined")
    (Option.some c.node))
/-- Models the inherited `jinja2.Undefined.__bool__` (jinja 2.x), which
`ParserMacroCapture` does not override: the permissive base `Undefined`
returns `False` from a boolean coercion instead of raising (only
`StrictUndefined` raises there). -/
def capture_force_bool (c : Capture) : Except DbtError Bool :=
  Except.ok false
/-- Models the inherited `jinja2.Undefined.__iter__` (jinja 2.x), which
`ParserMacroCapture` does not override: iterating the permissive base
`Undefined` yields an empty sequence instead of raising. -/
def capture_force_iter (c : Capture) : Except DbtError (List PyVal) :=
  Except.ok []
/-! ## The `var` resolver (src/core/dbt/context/base.py, class `Var`) -/
/-- The variable dictionaries `Var` works over. -/
abbrev VarDict := List (String × PyVal)
/-- A model node as `Var` sees it: `model.name` and `model.local_vars()`. -/
structure VarModel where
  name : String
  local_vars : VarDict
/-- Modelled from the spec: `dbt.utils.merge` (the file `dbt/utils.py` is
not among the provided sources).  Per the spec's precedence rules ("looks up
a name first in caller-supplied overrides", "hard-overrides ... take
precedence over context-based var definitions"), later arguments win on key
collision, like a Python dict built from both mappings. -/
def merge (a b : VarDict) : VarDict := dupd a b
/-- `Var.__init__`, the model-name part: with no model the name is
`<Configuration>`, else the model's name. -/
def var_model_name (model : Option VarModel) : String :=
  match model with
  | Option.none => "<Configuration>"
  | Option.some m => m.name
/-- `Var.__init__`, the `self.local_vars` part: the model's local vars (empty
with no model) merged with the overrides, overrides last. -/
def var_local_vars (model : Option VarModel) (overrides : VarDict) : VarDict :=
  merge (match model with
         | Option.none => []
         | Option.some m => m.local_vars) overrides
/-- `Var.UndefinedVarError` (lines 36-37) formatted as `get_missing_var`
formats it: `"Required var '{}' not found in config:\nVars supplied to {} =
{}".format(var_name, model_name, pretty_vars)`. -/
def missing_var_msg (var_name model_name pretty_vars : String) : String :=
  "Required var '" ++ var_name ++ "' not found in config:\nVars supplied to "
    ++ model_name ++ " = " ++ pretty_vars
/-- The compilation failure `Var.get_missing_var` raises: the formatted
message, attributed to the model.  `pretty_dict` stands for
`json.dumps(data, sort_keys=True, indent=4)`, an external stdlib call
applied to the whole `local_vars` mapping. -/
structure VarError where
  msg : String
  node : Option VarModel
/-- `Var.get_missing_var` (lines 61-66). -/
def get_missing_var (pretty_dict : VarDict → String) (model : Option VarModel)
    (overrides : VarDict) (var_name : String) : VarError :=
  ⟨missing_var_msg var_name (var_model_name model)
      (pretty_dict (var_local_vars model overrides)),
   model⟩
/-- `Var.get_rendered_var`'s treatment of the raw value (lines 72-78):
string values are rendered through the template system (`render_str` stands
for `dbt.clients.jinja.get_rendered(raw, self.context)`), other values pass
through unchanged. -/
def render_if_str (render_str : String → String) (raw : PyVal) : PyVal :=
  match raw with
  | PyVal.str s => PyVal.str (render_str s)
  | v => v
/-- `Var.__call__` (lines 80-86): a name present in the merged
`self.local_vars` is answered by `get_rendered_var`; otherwise a supplied
default (the `_VAR_NOTSET` sentinel is `Option.none`) is returned as-is;
otherwise `get_missing_var` raises. -/
def var_call (render_str : String → String) (pretty_dict : VarDict → String)
    (model : Option VarModel) (overrides : VarDict)
    (var_name : String) (default : Option PyVal) : Except VarError PyVal :=
  match dget (var_local_vars model overrides) var_name with
  | Option.some raw => Except.ok (render_if_str render_str raw)
  | Option.none =>
    match default with
    | Option.some d => Except.ok d
    | Option.none =>
      Except.error (get_missing_var pretty_dict model overrides var_name)
/-! ## `env_var` (src/core/dbt/context/base.py lines 18-25)

The Python signature is `env_var(var, default=None)`: an omitted default and
an explicitly passed `None` are the same value, and the guard is
`elif default is not None`. -/
/-- `env_var`: return the process environment's value if the name is set;
else return the default unless it is `None`; else raise the jinja
`UndefinedError` "Env var required but not provided". -/
def env_var (env : List (String × String)) (var : String)
    (default : PyVal := PyVal.none) : Except DbtError PyVal :=
  match dget env var with
  | Option.some v => Except.ok (PyVal.str v)
  | Option.none =>
    match default with
    | PyVal.none => Except.error (DbtError.undefined
        ("Env var required but not provided: '" ++ var ++ "'"))
    | d => Except.ok d
/-! ## `fromjson` / `tojson` (src/core/dbt/context/base.py lines 122-133)

Both wrap a Python `json` stdlib call in `try ... except ValueError: return
default`.  The stdlib is an external collaborator; per its documented
contract `json.dumps` raises `TypeError` for an unserializable object and
`ValueError` for pathological values (e.g. circular references, which an
inductive value cannot exhibit), and `json.loads` signals decode failures
as `json.JSONDecodeError`, a `ValueError` subclass. -/
/-- The two Python exception kinds a `json` stdlib call can raise. -/
inductive JsonError where
  | typeError (msg : String)
  | valueError (msg : String)
deriving DecidableEq, Repr
mutual
/-- Models the stdlib `json.dumps` on the embedded value type: serializable
values encode, a `set` raises `TypeError` as documented. -/
def json_dumps : PyVal → Except JsonError String
  | PyVal.none => Except.ok "null"
  | PyVal.bool true => Except.ok "true"
  | PyVal.bool false => Except.ok "false"
  | PyVal.int n => Except.ok (toString n)
  | PyVal.str s => Except.ok ("\"" ++ s ++ "\"")
  | PyVal.list xs =>
    match json_dumps_list xs with
    | Except.ok parts => Except.ok ("[" ++ String.intercalate ", " parts ++ "]")
    | Except.error e => Except.error e
  | PyVal.set _ =>
    Except.error (JsonError.typeError "Object of type set is not JSON serializable")
/-- `json.dumps` over the elements of a list. -/
def json_dumps_list : List PyVal → Except JsonError (List String)
  | [] => Except.ok []
  | x :: xs =>
    match json_dumps x with
    | Except.ok s =>
      match json_dumps_list xs with
      | Except.ok ss => Except.ok (s :: ss)
      | Except.error e => Except.error e
    | Except.error e => Except.error e
end
/-- `fromjson(string, default=None)`: `json.loads` (abstracted as `loads`,
an external stdlib call) under `except ValueError: return default` — a
`TypeError` is not caught and propagates. -/
def fromjson (loads : String → Except JsonError PyVal) (string : String)
    (default : PyVal := PyVal.none) : Except JsonError PyVal :=
  match loads string with
  | Except.ok v => Except.ok v
  | Except.error (JsonError.valueError _) => Except.ok default
  | Except.error (JsonError.typeError m) => Except.error (JsonError.typeError m)
/-- `tojson(value, default=None)`: `json.dumps` under `except ValueError:
return default` — a `TypeError` is not caught and propagates. -/
def tojson (value : PyVal) (default : PyVal := PyVal.none) :
    Except JsonError PyVal :=
  match json_dumps value with
  | Except.ok s => Except.ok (PyVal.str s)
  | Except.error (JsonError.valueError _) => Except.ok default
  | Except.error (JsonError.typeError m) => Except.error (JsonError.typeError m)
/-! ## Rendering-context macro layering (src/core/dbt/context/common.py,
`_add_macro_map` and `ManifestParsedContext.add_macros`)

`PACKAGES` and `GLOBAL_PROJECT_NAME` come from `dbt.include.global_project`
(external constants); they are threaded as parameters `P` and `G`.  `s` is
`self.search_package_name` (the current model's own package).  A bound macro
generator is identified by its macro's `unique_id`; the context maps names
to either a package namespace (`CtxVal.ns`), a flat-merged generator
(`CtxVal.mac`) or any other context value (`CtxVal.prim`). -/
/-- `dbt.node_types.NodeType`, as far as `add_macros` consults it. -/
inductive NodeType where
  | Macro
  | Model
  | Seed
  | Operation
deriving DecidableEq, Repr
/-- One entry of `manifest.macros`: `add_macros` reads its resource type,
its owning package, its short name, and builds its generator (identified
here by `unique_id`). -/
structure ManifestMacro where
  unique_id : String
  resource_type : NodeType
  package_name : String
  name : String
deriving DecidableEq, Repr
/-- The `macro_map` dicts `add_macros` builds: macro short name to the
generator bound for it. -/
abbrev MacroMap := List (String × String)
/-- A value stored in the rendering context. -/
inductive CtxVal where
  | ns (d : List (String × String))
  | mac (unique_id : String)
  | prim (s : String)
deriving DecidableEq, Repr
abbrev Ctx := List (String × CtxVal)
section ContextBuilder
variable (P : List String) (G s : String)
/-- The namespace key `_add_macro_map` files a package under: adapter /
built-in packages (members of `PACKAGES`) collapse into the shared
`GLOBAL_PROJECT_NAME` namespace. -/
def _map_key (package_name : String) : String :=
  if package_name ∈ P then G else package_name
/-- `_add_macro_map` (src/core/dbt/context/common.py lines 98-112): compute
the key, create an empty namespace if the key is absent, then
`context[key].update(macro_map)`.  A non-namespace value already stored at
the key makes the Python `.update` call raise `AttributeError`. -/
def _add_macro_map (context : Ctx) (package_name : String) (macro_map : MacroMap) :
    Except String Ctx :=
  let key := _map_key P G package_name
  match dget context key with
  | Option.none => Except.ok (dins context key (CtxVal.ns (dupd [] macro_map)))
  | Option.some (CtxVal.ns d) => Except.ok (dins context key (CtxVal.ns (dupd d macro_map)))
  | Option.some _ => Except.error "AttributeError: context value has no update method"
/-- The manifest loop of `ManifestParsedContext.add_macros` (lines 121-141):
skip non-macros; build the singleton `macro_map`; file it into its package
namespace via `_add_macro_map`; and collect it into `local_macros` when the
package is the search package, else into `global_macros` when the package is
a built-in package. -/
def add_macros_loop :
    List ManifestMacro → Ctx → List MacroMap → List MacroMap →
      Except String (Ctx × List MacroMap × List MacroMap)
  | [], context, global_macros, local_macros =>
    Except.ok (context, global_macros, local_macros)
  | m :: rest, context, global_macros, local_macros =>
    if m.resource_type ≠ NodeType.Macro then
      add_macros_loop rest context global_macros local_macros
    else
      let macro_map : MacroMap := [(m.name, m.unique_id)]
      match _add_macro_map P G context m.package_name macro_map with
      | Except.error e => Except.error e
      | Except.ok context' =>
        if m.package_name = s then
          add_macros_loop rest context' global_macros (local_macros ++ [macro_map])
        else if m.package_name ∈ P then
          add_macros_loop rest context' (global_macros ++ [macro_map]) local_macros
        else
          add_macros_loop rest context' global_macros local_macros
/-- `context.update(macro_map)` in the final merge passes: each short name is
bound at the top level to its generator. -/
def ctx_update (context : Ctx) (macro_map : MacroMap) : Ctx :=
  macro_map.foldl (fun c e => dins c e.1 (CtxVal.mac e.2)) context
/-- `ManifestParsedContext.add_macros` (lines 121-144): run the manifest
loop, then merge the collected macro maps flat into the top level, the
global pass first and the local pass second ("Load global macros before
local macros -- local takes precedence"). -/
def add_macros (context : Ctx) (manifest_macros : List ManifestMacro) :
    Except String Ctx :=
  match add_macros_loop P G s manifest_macros context [] [] with
  | Except.error e => Except.error e
  | Except.ok (context', global_macros, local_macros) =>
    Except.ok ((global_macros ++ local_macros).foldl ctx_update context')
/-! Specification helpers for reasoning about `add_macros`. -/
/-- The (name, generator) pairs the loop files under namespace key `K`, in
manifest order. -/
def ns_entries (K : String) : List ManifestMacro → List (String × String)
  | [] => []
  | m :: rest =>
    if m.resource_type ≠ NodeType.Macro then ns_entries K rest
    else if _map_key P G m.package_name = K then
      (m.name, m.unique_id) :: ns_entries K rest
    else ns_entries K rest
/-- The macro maps the loop collects into `global_macros`, in order. -/
def global_maps : List ManifestMacro → List MacroMap
  | [] => []
  | m :: rest =>
    if m.resource_type ≠ NodeType.Macro then global_maps rest
    else if m.package_name = s then global_maps rest
    else if m.package_name ∈ P then [(m.name, m.unique_id)] :: global_maps rest
    else global_maps rest
/-- The macro maps the loop collects into `local_macros`, in order. -/
def local_maps : List ManifestMacro → List MacroMap
  | [] => []
  | m :: rest =>
    if m.resource_type ≠ NodeType.Macro then local_maps rest
    else if m.package_name = s then [(m.name, m.unique_id)] :: local_maps rest
    else local_maps rest
/-- The last manifest macro that is a real macro of the search package with
short name `n` — the one whose generator the local merge pass binds last. -/
def last_local_named (n : String) : List ManifestMacro → Option ManifestMacro
  | [] => Option.none
  | m :: rest =>
    match last_local_named n rest with
    | Option.some x => Option.some x
    | Option.none =>
      if m.resource_type = NodeType.Macro ∧ m.package_name = s ∧ m.name = n then
        Option.some m
      else Option.none
/-- The last manifest macro that is a real macro of a built-in package with
short name `n`. -/
def last_pkg_named (n : String) : List ManifestMacro → Option ManifestMacro
  | [] => Option.none
  | m :: rest =>
    match last_pkg_named n rest with
    | Option.some x => Option.some x
    | Option.none =>
      if m.resource_type = NodeType.Macro ∧ m.package_name ∈ P ∧ m.name = n then
        Option.some m
      else Option.none
end ContextBuilder
/-- The flat (name, generator) pairs the global merge pass writes, in order. -/
def global_entries (P : List String) (s : String) :
    List ManifestMacro → List (String × String)
  | [] => []
  | m :: rest =>
    if m.resource_type ≠ NodeType.Macro then global_entries P s rest
    else if m.package_name = s then global_entries P s rest
    else if m.package_name ∈ P then (m.name, m.unique_id) :: global_entries P s rest
    else global_entries P s rest
/-- The flat (name, generator) pairs the local merge pass writes, in order. -/
def local_entries (s : String) : List ManifestMacro → List (String × String)
  | [] => []
  | m :: rest =>
    if m.resource_type ≠ NodeType.Macro then local_entries s rest
    else if m.package_name = s then (m.name, m.unique_id) :: local_entries s rest
    else local_entries s rest
/-- What the loop leaves at a context key that starts out absent or a
namespace: untouched if no entry is filed there, else the accumulated
namespace. -/
def ns_after : Option CtxVal → List (String × String) → Option CtxVal
  | v, [] => v
  | Option.some (CtxVal.ns d), es => Option.some (CtxVal.ns (dupd d es))
  | _, es => Option.some (CtxVal.ns (dupd [] es))
/-! Concrete data for the C1 witness. -/
def exP : List String := ["dbt", "dbt_postgres"]
def exCtx : Ctx := [("env_var", CtxVal.prim "builtin")]
def exMglob : ManifestMacro :=
  ⟨"macro.dbt.generate_alias", NodeType.Macro, "dbt", "generate_alias"⟩
def exMloc : ManifestMacro :=
  ⟨"macro.my_project.generate_alias", NodeType.Macro, "my_project", "generate_alias"⟩
def exMs : List ManifestMacro :=
  [exMglob,
   ⟨"model.my_project.foo", NodeType.Model, "my_project", "foo"⟩,
   exMloc,
   ⟨"macro.my_project.other", NodeType.Macro, "my_project", "other"⟩]
def exR : Ctx :=
  [("env_var", CtxVal.prim "builtin"),
   ("dbt", CtxVal.ns [("generate_alias", "macro.dbt.generate_alias")]),
   ("my_project",
    CtxVal.ns [("generate_alias", "macro.my_project.generate_alias"),
               ("other", "macro.my_project.other")]),
   ("generate_alias", CtxVal.mac "macro.my_project.generate_alias"),
   ("other", CtxVal.mac "macro.my_project.other")]
def ex_render : String → String := fun s => s
def ex_pretty : VarDict → String := fun _ => "<pretty-printed vars>"
def ex_model : VarModel :=
  ⟨"my_model", [("x", PyVal.str "local_x"), ("y", PyVal.int 1)]⟩
def ex_overrides : VarDict := [("x", PyVal.str "cli_x")]
def capture_demo_node : Node := ⟨"my_package", "my_model"⟩
def loads_fail : String → Except JsonError PyVal :=
  fun _ => Except.error (JsonError.valueError "Expecting value: line 1 column 1 (char 0)")
/-! ## Block lexer (src/core/dbt/clients/jinja.py `extract_toplevel_blocks`)

Modelled from the spec: `extract_toplevel_blocks` delegates to
`BlockIterator.lex_for_blocks` in `dbt/clients/_jinja_blocks.py`, which is
not among the provided sources; the lexer below follows the spec's §4.1
algorithm.  The source text is taken already split into lexical tokens, each
carrying its raw text: plain characters/text, template comments and quoted
string literals (whose contents are never read as tags — the spec's
"quote/comment-literal state"), and `\x7b% ... %\x7d` tag spans with their
recognized leading tag name.  The scan is a single left-to-right pass: at
top level an allowed tag flushes the accumulated raw data (when raw-data
collection is on) and opens a block; inside a block the matching
`end<name>` tag emits the completed `BlockTag` holding the full raw span,
another allowed tag is the illegal-nesting error, and any other token is
accumulated into the open block's body; end of input with an open block is
the unterminated-block error naming the dangling tag. -/
/-- One lexical token of the template source, carrying its raw text. -/
inductive Tok where
  | text (s : String)
  | comment (s : String)
  | quoted (s : String)
  | tag (name : String) (block_name : String) (raw : String)
deriving DecidableEq, Repr
/-- The raw text a token spans. -/
def Tok.raw : Tok → String
  | Tok.text s => s
  | Tok.comment s => s
  | Tok.quoted s => s
  | Tok.tag _ _ r => r
/-- The raw text of a whole token sequence — the original source text. -/
def raw_of : List Tok → String
  | [] => ""
  | t :: ts => t.raw ++ raw_of ts
/-- A raw-data span between recognized blocks (`BlockData`). -/
structure BlockData where
  raw : String
deriving DecidableEq, Repr
/-- A recognized block (`BlockTag`): its type name, its declared name, and
the full raw span from the opening tag through the close tag. -/
structure BlockTag where
  block_type_name : String
  block_name : String
  raw : String
deriving DecidableEq, Repr
/-- One element of the lexer's output. -/
inductive Block where
  | data (d : BlockData)
  | tag (t : BlockTag)
deriving DecidableEq, Repr
/-- The raw span of one output block. -/
def Block.raw : Block → String
  | Block.data d => d.raw
  | Block.tag t => t.raw
/-- The concatenation of the output blocks' raw spans, in order. -/
def blocks_raw : List Block → String
  | [] => ""
  | b :: bs => b.raw ++ blocks_raw bs
/-- Flush the accumulated top-level raw data as a `BlockData` (only when
raw-data collection is on and the accumulator is nonempty). -/
def flush_data (collect : Bool) (out : List Block) (acc : String) : List Block :=
  if collect ∧ acc ≠ "" then out ++ [Block.data ⟨acc⟩] else out
/-- The lexer's scan loop.  State: remaining tokens, the top-level raw-data
accumulator, the currently open block (tag name, declared block name,
accumulated raw span) if any, and the emitted blocks. -/
def lex_go (allowed : List String) (collect : Bool) :
    List Tok → String → Option (String × String × String) → List Block →
      Except String (List Block)
  | [], acc, Option.none, out => Except.ok (flush_data collect out acc)
  | [], _, Option.some st, _ =>
    Except.error ("Reached EOF without finding a close tag for " ++ st.1)
  | t :: rest, acc, Option.none, out =>
    match t with
    | Tok.tag name bname raw =>
      if name ∈ allowed then
        lex_go allowed collect rest "" (Option.some (name, bname, raw))
          (flush_data collect out acc)
      else
        lex_go allowed collect rest (acc ++ raw) Option.none out
    | tok => lex_go allowed collect rest (acc ++ tok.raw) Option.none out
  | t :: rest, acc, Option.some st, out =>
    match t with
    | Tok.tag name _ raw =>
      if name = "end" ++ st.1 then
        lex_go allowed collect rest acc Option.none
          (out ++ [Block.tag ⟨st.1, st.2.1, st.2.2 ++ raw⟩])
      else if name ∈ allowed then
        Except.error ("Got nested tag " ++ name ++ " inside unclosed " ++ st.1)
      else
        lex_go allowed collect rest acc
          (Option.some (st.1, st.2.1, st.2.2 ++ raw)) out
    | tok =>
      lex_go allowed collect rest acc
        (Option.some (st.1, st.2.1, st.2.2 ++ tok.raw)) out
/-- `extract_toplevel_blocks(data, allowed_blocks, collect_raw_data)`:
run the scan from the empty initial state. -/
def extract_toplevel_blocks (data : List Tok) (allowed_blocks : List String)
    (collect_raw_data : Bool) : Except String (List Block) :=
  lex_go allowed_blocks collect_raw_data data "" Option.none []
/-- The raw span of the open-block state. -/
def open_raw : Option (String × String × String) → String
  | Option.none => ""
  | Option.some st => st.2.2
def exToks : List Tok :=
  [Tok.text "select 1;\n",
   Tok.tag "macro" "my_macro" "\x7b% macro my_macro(a) %\x7d",
   Tok.text "select ",
   Tok.quoted "'\x7b% not a tag %\x7d'",
   Tok.tag "endmacro" "" "\x7b% endmacro %\x7d",
   Tok.comment "\x7b# trailing #\x7d",
   Tok.text "\n"]
def exBlocks : List Block :=
  [Block.data ⟨"select 1;\n"⟩,
   Block.tag ⟨"macro", "my_macro",
     "\x7b% macro my_macro(a) %\x7dselect '\x7b% not a tag %\x7d'\x7b% endmacro %\x7d"⟩,
   Block.data ⟨"\x7b# trailing #\x7d\n"⟩]
theorem dget_dins_self {α : Type} (d : List (String × α)) (k : String) (v : α) :
    dget (dins d k v) k = Option.some v := by
  induction d with
  | nil => simp [dins, dget]
  | cons e rest ih =>
    by_cases h : e.1 = k
    · simp [dins, h, dget]
    · simp [dins, h, dget, ih]
theorem dget_dins_other {α : Type} (d : List (String × α)) (k k' : String) (v : α)
    (h : k ≠ k') : dget (dins d k' v) k = dget d k := by
  induction d with
  | nil => simp [dins, dget, Ne.symm h]
  | cons e rest ih =>
    by_cases he : e.1 = k'
    · simp [dins, he, dget, Ne.symm h]
    · simp [dins, he, dget, ih]
theorem dget_dupd {α : Type} (es : List (String × α)) :
    ∀ (d : List (String × α)) (k : String),
      dget (dupd d es) k =
        match lastVal es k with
        | Option.some v => Option.some v
        | Option.none => dget d k := by
  induction es with
  | nil => intro d k; simp [dupd, lastVal]
  | cons e rest ih =>
    intro d k
    have step : dupd d (e :: rest) = dupd (dins d e.1 e.2) rest := rfl
    rw [step, ih]
    cases hr : lastVal rest k with
    | some v => simp [lastVal, hr]
    | none =>
      by_cases hek : e.1 = k
      · subst hek; simp [lastVal, hr, dget_dins_self]
      · simp [lastVal, hr, hek, dget_dins_other d k e.1 e.2 (fun hh => hek hh.symm)]
theorem lastVal_append {α : Type} (a b : List (String × α)) (k : String) :
    lastVal (a ++ b) k =
      match lastVal b k with
      | Option.some v => Option.some v
      | Option.none => lastVal a k := by
  induction a with
  | nil => cases hb : lastVal b k <;> simp [lastVal, hb]
  | cons e rest ih =>
    simp only [List.cons_append, lastVal, List.append_eq]
    rw [ih]
    cases hb : lastVal b k <;> cases hr : lastVal rest k <;> simp [hb, hr]
theorem lastVal_none_of_no_key {α : Type} (es : List (String × α)) (k : String)
    (h : ∀ e ∈ es, e.1 ≠ k) : lastVal es k = Option.none := by
  induction es with
  | nil => rfl
  | cons e rest ih =>
    rw [lastVal, ih (fun x hx => h x (List.mem_cons_of_mem e hx))]
    simp [h e (List.mem_cons_self e rest)]
theorem dget_none_of_no_key {α : Type} (es : List (String × α)) (k : String)
    (h : ∀ e ∈ es, e.1 ≠ k) : dget es k = Option.none := by
  induction es with
  | nil => rfl
  | cons e rest ih =>
    rw [dget, ih (fun x hx => h x (List.mem_cons_of_mem e hx))]
    simp [h e (List.mem_cons_self e rest)]
/-- On a dict with no repeated keys — every dict a Python program builds —
the first and the last binding of a key agree. -/
theorem lastVal_eq_dget_of_nodup {α : Type} (es : List (String × α)) (k : String)
    (h : (es.map Prod.fst).Nodup) : lastVal es k = dget es k := by
  induction es with
  | nil => rfl
  | cons e rest ih =>
    rw [List.map_cons, List.nodup_cons] at h
    obtain ⟨hnotin, hrest⟩ := h
    by_cases hek : e.1 = k
    · have hnone : ∀ x ∈ rest, x.1 ≠ k := by
        intro x hx hc
        apply hnotin
        rw [hek, ← hc]
        exact List.mem_map.mpr ⟨x, hx, rfl⟩
      rw [lastVal, dget, lastVal_none_of_no_key rest k hnone]
      simp [hek]
    · rw [lastVal, dget, ih hrest]
      cases hr : dget rest k <;> simp [hek]
theorem ns_after_ns (d : List (String × String)) (es : List (String × String)) :
    ns_after (Option.some (CtxVal.ns d)) es = Option.some (CtxVal.ns (dupd d es)) := by
  cases es <;> rfl
theorem dupd_cons {α : Type} (d : List (String × α)) (e : String × α)
    (es : List (String × α)) : dupd d (e :: es) = dupd (dins d e.1 e.2) es := rfl
theorem add_macros_loop_maps (P : List String) (G s : String)
    (ms : List ManifestMacro) :
    ∀ (context : Ctx) (g l : List MacroMap) (c' : Ctx) (g' l' : List MacroMap),
      add_macros_loop P G s ms context g l = Except.ok (c', g', l') →
      g' = g ++ global_maps P s ms ∧ l' = l ++ local_maps s ms := by
  induction ms with
  | nil =>
    intro context g l c' g' l' h
    simp only [add_macros_loop, Except.ok.injEq, Prod.mk.injEq] at h
    simp [global_maps, local_maps, h.2.1.symm, h.2.2.symm]
  | cons m rest ih =>
    intro context g l c' g' l' h
    rw [add_macros_loop] at h
    by_cases hres : m.resource_type = NodeType.Macro
    · simp only [hres, ne_eq, not_true_eq_false, if_false] at h
      cases ham : _add_macro_map P G context m.package_name [(m.name, m.unique_id)] with
      | error e => rw [ham] at h; exact absurd h (by simp)
      | ok context2 =>
        rw [ham] at h
        by_cases hpkg : m.package_name = s
        · simp only [hpkg, if_true] at h
          obtain ⟨hg, hl⟩ := ih context2 g (l ++ [[(m.name, m.unique_id)]]) c' g' l' h
          refine ⟨?_, ?_⟩
          · rw [hg]; simp [global_maps, hres, hpkg]
          · rw [hl]; simp [local_maps, hres, hpkg]
        · simp only [hpkg, if_false] at h
          by_cases hmem : m.package_name ∈ P
          · simp only [hmem, if_true] at h
            obtain ⟨hg, hl⟩ := ih context2 (g ++ [[(m.name, m.unique_id)]]) l c' g' l' h
            refine ⟨?_, ?_⟩
            · rw [hg]; simp [global_maps, hres, hpkg, hmem]
            · rw [hl]; simp [local_maps, hres, hpkg]
          · simp only [hmem, if_false] at h
            obtain ⟨hg, hl⟩ := ih context2 g l c' g' l' h
            refine ⟨?_, ?_⟩
            · rw [hg]; simp [global_maps, hres, hpkg, hmem]
            · rw [hl]; simp [local_maps, hres, hpkg]
    · simp only [hres, ne_eq, not_false_eq_true, if_true] at h
      obtain ⟨hg, hl⟩ := ih context g l c' g' l' h
      refine ⟨?_, ?_⟩
      · rw [hg]; simp [global_maps, hres]
      · rw [hl]; simp [local_maps, hres]
theorem add_macros_loop_ns (P : List String) (G s : String)
    (ms : List ManifestMacro) :
    ∀ (context : Ctx) (g l : List MacroMap) (c' : Ctx) (g' l' : List MacroMap)
      (K : String),
      add_macros_loop P G s ms context g l = Except.ok (c', g', l') →
      (dget context K = Option.none ∨
        ∃ d, dget context K = Option.some (CtxVal.ns d)) →
      dget c' K = ns_after (dget context K) (ns_entries P G K ms) := by
  induction ms with
  | nil =>
    intro context g l c' g' l' K h _
    simp only [add_macros_loop, Except.ok.injEq, Prod.mk.injEq] at h
    rw [← h.1]
    simp [ns_entries, ns_after]
  | cons m rest ih =>
    intro context g l c' g' l' K h hpre
    rw [add_macros_loop] at h
    by_cases hres : m.resource_type = NodeType.Macro
    · simp only [hres, ne_eq, not_true_eq_false, if_false] at h
      cases ham : _add_macro_map P G context m.package_name [(m.name, m.unique_id)] with
      | error e => rw [ham] at h; exact absurd h (by simp)
      | ok context2 =>
        rw [ham] at h
        -- whichever accumulator branch was taken, the loop recursed on
        -- `rest` with context2
        have hrec : ∃ g2 l2,
            add_macros_loop P G s rest context2 g2 l2 = Except.ok (c', g', l') := by
          by_cases hpkg : m.package_name = s
          · simp only [hpkg, if_true] at h; exact ⟨_, _, h⟩
          · simp only [hpkg, if_false] at h
            by_cases hmem : m.package_name ∈ P
            · simp only [hmem, if_true] at h; exact ⟨_, _, h⟩
            · simp only [hmem, if_false] at h; exact ⟨_, _, h⟩
        obtain ⟨g2, l2, hrec⟩ := hrec
        -- the shape `_add_macro_map` leaves context2 in
        rw [_add_macro_map] at ham
        cases hck : dget context (_map_key P G m.package_name) with
        | none =>
          rw [hck] at ham
          simp only [Except.ok.injEq] at ham
          by_cases hKk : K = _map_key P G m.package_name
          · have hget2 : dget context2 K =
                Option.some (CtxVal.ns (dupd [] [(m.name, m.unique_id)])) := by
              rw [← ham, hKk]; exact dget_dins_self context _ _
            have := ih context2 g2 l2 c' g' l' K hrec (Or.inr ⟨_, hget2⟩)
            rw [this, hget2, ns_after_ns]
            rw [hKk, hck]
            have hcond : _map_key P G m.package_name = K := hKk.symm
            rw [ns_entries]
            simp only [hres, ne_eq, not_true_eq_false, if_false, hcond, if_true]
            rw [dupd_cons]
            rfl
          · have hget2 : dget context2 K = dget context K := by
              rw [← ham]; exact dget_dins_other context K _ _ hKk
            have := ih context2 g2 l2 c' g' l' K hrec (by rw [hget2]; exact hpre)
            rw [this, hget2]
            have hcond : ¬ (_map_key P G m.package_name = K) := fun hh => hKk hh.symm
            rw [ns_entries]
            simp only [hres, ne_eq, not_true_eq_false, if_false, hcond]
        | some v =>
          cases v with
          | ns d =>
            rw [hck] at ham
            simp only [Except.ok.injEq] at ham
            by_cases hKk : K = _map_key P G m.package_name
            · have hget2 : dget context2 K =
                  Option.some (CtxVal.ns (dupd d [(m.name, m.unique_id)])) := by
                rw [← ham, hKk]; exact dget_dins_self context _ _
              have := ih context2 g2 l2 c' g' l' K hrec (Or.inr ⟨_, hget2⟩)
              rw [this, hget2, ns_after_ns]
              rw [hKk, hck, ns_after_ns]
              have hcond : _map_key P G m.package_name = K := hKk.symm
              rw [ns_entries]
              simp only [hres, ne_eq, not_true_eq_false, if_false, hcond, if_true]
              rw [dupd_cons]
              rfl
            · have hget2 : dget context2 K = dget context K := by
                rw [← ham]; exact dget_dins_other context K _ _ hKk
              have := ih context2 g2 l2 c' g' l' K hrec (by rw [hget2]; exact hpre)
              rw [this, hget2]
              have hcond : ¬ (_map_key P G m.package_name = K) := fun hh => hKk hh.symm
              rw [ns_entries]
              simp only [hres, ne_eq, not_true_eq_false, if_false, hcond]
          | mac u => rw [hck] at ham; exact absurd ham (by simp)
          | prim p => rw [hck] at ham; exact absurd ham (by simp)
    · simp only [hres, ne_eq, not_false_eq_true, if_true] at h
      have := ih context g l c' g' l' K h hpre
      rw [this, ns_entries]
      simp only [hres, ne_eq, not_false_eq_true, if_true]
theorem ctx_update_foldl (maps : List MacroMap) :
    ∀ context : Ctx,
      maps.foldl ctx_update context =
        (maps.flatten).foldl (fun c e => dins c e.1 (CtxVal.mac e.2)) context := by
  induction maps with
  | nil => intro context; rfl
  | cons mm rest ih =>
    intro context
    show rest.foldl ctx_update (ctx_update context mm) = _
    rw [ih, List.flatten_cons, List.foldl_append]
    rfl
theorem mac_foldl_as_dupd (es : List (String × String)) (context : Ctx) :
    es.foldl (fun c e => dins c e.1 (CtxVal.mac e.2)) context =
      dupd context (es.map (fun e => (e.1, CtxVal.mac e.2))) := by
  rw [dupd, List.foldl_map]
theorem lastVal_map_mac (es : List (String × String)) (k : String) :
    lastVal (es.map (fun e => (e.1, CtxVal.mac e.2))) k =
      (lastVal es k).map CtxVal.mac := by
  induction es with
  | nil => rfl
  | cons e rest ih =>
    simp only [List.map_cons, lastVal, ih]
    cases hr : lastVal rest k <;> by_cases hek : e.1 = k <;> simp [hek]
theorem global_maps_join (P : List String) (s : String) (ms : List ManifestMacro) :
    (global_maps P s ms).flatten = global_entries P s ms := by
  induction ms with
  | nil => rfl
  | cons m rest ih =>
    rw [global_maps, global_entries]
    by_cases hres : m.resource_type = NodeType.Macro
    · simp only [hres, ne_eq, not_true_eq_false, if_false]
      by_cases hpkg : m.package_name = s
      · simp [hpkg, ih]
      · by_cases hmem : m.package_name ∈ P
        · simp [hpkg, hmem, List.flatten_cons, ih]
        · simp [hpkg, hmem, ih]
    · simp [hres, ih]
theorem local_maps_join (s : String) (ms : List ManifestMacro) :
    (local_maps s ms).flatten = local_entries s ms := by
  induction ms with
  | nil => rfl
  | cons m rest ih =>
    rw [local_maps, local_entries]
    by_cases hres : m.resource_type = NodeType.Macro
    · simp only [hres, ne_eq, not_true_eq_false, if_false]
      by_cases hpkg : m.package_name = s
      · simp [hpkg, List.flatten_cons, ih]
      · simp [hpkg, ih]
    · simp [hres, ih]
theorem lastVal_local_entries (s n : String) (ms : List ManifestMacro) :
    lastVal (local_entries s ms) n =
      (last_local_named s n ms).map (fun m => m.unique_id) := by
  induction ms with
  | nil => rfl
  | cons m rest ih =>
    rw [local_entries, last_local_named]
    by_cases hres : m.resource_type = NodeType.Macro
    · simp only [hres, ne_eq, not_true_eq_false, if_false]
      by_cases hpkg : m.package_name = s
      · simp only [hpkg, if_true, lastVal, ih]
        cases hr : last_local_named s n rest with
        | some x => simp
        | none =>
          by_cases hn : m.name = n <;> simp [hres, hpkg, hn]
      · simp only [hpkg, if_false, ih]
        cases hr : last_local_named s n rest with
        | some x => simp
        | none => simp [hres, hpkg]
    · simp only [hres, ne_eq, not_false_eq_true, if_true, ih]
      cases hr : last_local_named s n rest with
      | some x => simp
      | none => simp [hres]
theorem lastVal_global_entries (P : List String) (s n : String)
    (ms : List ManifestMacro) (hsP : s ∉ P) :
    lastVal (global_entries P s ms) n =
      (last_pkg_named P n ms).map (fun m => m.unique_id) := by
  induction ms with
  | nil => rfl
  | cons m rest ih =>
    rw [global_entries, last_pkg_named]
    by_cases hres : m.resource_type = NodeType.Macro
    · simp only [hres, ne_eq, not_true_eq_false, if_false]
      by_cases hpkg : m.package_name = s
      · have hmem : m.package_name ∉ P := fun hh => hsP (hpkg ▸ hh)
        simp only [hpkg, if_true, ih]
        cases hr : last_pkg_named P n rest with
        | some x => simp
        | none => simp [hres, hmem, hsP]
      · by_cases hmem : m.package_name ∈ P
        · simp only [hpkg, if_false, hmem, if_true, lastVal, ih]
          cases hr : last_pkg_named P n rest with
          | some x => simp
          | none =>
            by_cases hn : m.name = n <;> simp [hres, hmem, hn]
        · simp only [hpkg, if_false, hmem, ih]
          cases hr : last_pkg_named P n rest with
          | some x => simp
          | none => simp [hres, hmem]
    · simp only [hres, ne_eq, not_false_eq_true, if_true, ih]
      cases hr : last_pkg_named P n rest with
      | some x => simp
      | none => simp [hres]
theorem lastVal_ns_entries_search (P : List String) (G s n : String)
    (ms : List ManifestMacro) (hsP : s ∉ P) (hGs : G ≠ s) :
    lastVal (ns_entries P G s ms) n =
      (last_local_named s n ms).map (fun m => m.unique_id) := by
  induction ms with
  | nil => rfl
  | cons m rest ih =>
    rw [ns_entries, last_local_named]
    by_cases hres : m.resource_type = NodeType.Macro
    · simp only [hres, ne_eq, not_true_eq_false, if_false]
      by_cases hmem : m.package_name ∈ P
      · have hkey : _map_key P G m.package_name = G := by simp [_map_key, hmem]
        have hpkg : ¬ (m.package_name = s) := fun hh => hsP (hh ▸ hmem)
        simp only [hkey, hGs, if_false, ih]
        cases hr : last_local_named s n rest with
        | some x => simp
        | none => simp [hres, hpkg]
      · have hkey : _map_key P G m.package_name = m.package_name := by
          simp [_map_key, hmem]
        by_cases hpkg : m.package_name = s
        · have hkeys : _map_key P G s = s := by simp [_map_key, hsP]
          simp only [hpkg, hkeys, if_true, lastVal, ih]
          cases hr : last_local_named s n rest with
          | some x => simp
          | none => by_cases hn : m.name = n <;> simp [hres, hpkg, hn]
        · simp only [hkey, hpkg, if_false, ih]
          cases hr : last_local_named s n rest with
          | some x => simp
          | none => simp [hres, hpkg]
    · simp only [hres, ne_eq, not_false_eq_true, if_true, ih]
      cases hr : last_local_named s n rest with
      | some x => simp
      | none => simp [hres]
theorem lastVal_ns_entries_global (P : List String) (G n : String)
    (ms : List ManifestMacro) (hGP : G ∈ P) :
    lastVal (ns_entries P G G ms) n =
      (last_pkg_named P n ms).map (fun m => m.unique_id) := by
  induction ms with
  | nil => rfl
  | cons m rest ih =>
    rw [ns_entries, last_pkg_named]
    by_cases hres : m.resource_type = NodeType.Macro
    · simp only [hres, ne_eq, not_true_eq_false, if_false]
      by_cases hmem : m.package_name ∈ P
      · have hkey : _map_key P G m.package_name = G := by simp [_map_key, hmem]
        simp only [hkey, if_true, lastVal, ih]
        cases hr : last_pkg_named P n rest with
        | some x => simp
        | none => by_cases hn : m.name = n <;> simp [hres, hmem, hn]
      · have hkey : _map_key P G m.package_name = m.package_name := by
          simp [_map_key, hmem]
        have hpkG : ¬ (m.package_name = G) := fun hh => hmem (hh ▸ hGP)
        simp only [hkey, hpkG, if_false, ih]
        cases hr : last_pkg_named P n rest with
        | some x => simp
        | none => simp [hres, hmem]
    · simp only [hres, ne_eq, not_false_eq_true, if_true, ih]
      cases hr : last_pkg_named P n rest with
      | some x => simp
      | none => simp [hres]
theorem mem_global_entries (P : List String) (s : String)
    (ms : List ManifestMacro) (e : String × String)
    (h : e ∈ global_entries P s ms) :
    ∃ m, m ∈ ms ∧ e = (m.name, m.unique_id) := by
  induction ms with
  | nil => exact absurd h (by simp [global_entries])
  | cons m rest ih =>
    rw [global_entries] at h
    by_cases hres : m.resource_type = NodeType.Macro
    · simp only [hres, ne_eq, not_true_eq_false, if_false] at h
      by_cases hpkg : m.package_name = s
      · simp only [hpkg, if_true] at h
        obtain ⟨x, hx, he⟩ := ih h
        exact ⟨x, List.mem_cons_of_mem m hx, he⟩
      · simp only [hpkg, if_false] at h
        by_cases hmem : m.package_name ∈ P
        · simp only [hmem, if_true, List.mem_cons] at h
          cases h with
          | inl he => exact ⟨m, List.mem_cons_self m rest, he⟩
          | inr hh =>
            obtain ⟨x, hx, he⟩ := ih hh
            exact ⟨x, List.mem_cons_of_mem m hx, he⟩
        · simp only [hmem, if_false] at h
          obtain ⟨x, hx, he⟩ := ih h
          exact ⟨x, List.mem_cons_of_mem m hx, he⟩
    · simp only [hres, ne_eq, not_false_eq_true, if_true] at h
      obtain ⟨x, hx, he⟩ := ih h
      exact ⟨x, List.mem_cons_of_mem m hx, he⟩
theorem mem_local_entries (s : String)
    (ms : List ManifestMacro) (e : String × String)
    (h : e ∈ local_entries s ms) :
    ∃ m, m ∈ ms ∧ e = (m.name, m.unique_id) := by
  induction ms with
  | nil => exact absurd h (by simp [local_entries])
  | cons m rest ih =>
    rw [local_entries] at h
    by_cases hres : m.resource_type = NodeType.Macro
    · simp only [hres, ne_eq, not_true_eq_false, if_false] at h
      by_cases hpkg : m.package_name = s
      · simp only [hpkg, if_true, List.mem_cons] at h
        cases h with
        | inl he => exact ⟨m, List.mem_cons_self m rest, he⟩
        | inr hh =>
          obtain ⟨x, hx, he⟩ := ih hh
          exact ⟨x, List.mem_cons_of_mem m hx, he⟩
      · simp only [hpkg, if_false] at h
        obtain ⟨x, hx, he⟩ := ih h
        exact ⟨x, List.mem_cons_of_mem m hx, he⟩
    · simp only [hres, ne_eq, not_false_eq_true, if_true] at h
      obtain ⟨x, hx, he⟩ := ih h
      exact ⟨x, List.mem_cons_of_mem m hx, he⟩
/-- C1: during context building, every manifest macro is filed into a
namespace keyed by its owning package (built-in/adapter packages collapsing
into the shared global-project namespace `G`), and all global/built-in-
package macros followed by the search package's own macros are merged flat
into the top level; so when the manifest holds a local macro `mloc` and a
built-in-package macro `mglob` that share the short name `n`, the flat
binding of `n` is the local generator (local wins, because the local pass
runs last), while both generators stay reachable under the search package's
key and the global-project key respectively. -/
theorem add_macros_local_wins_both_namespaced
    (P : List String) (G s n : String) (context : Ctx)
    (ms : List ManifestMacro) (mloc mglob : ManifestMacro) (R : Ctx)
    (hok : add_macros P G s context ms = Except.ok R)
    (hsP : s ∉ P) (hGP : G ∈ P)
    (hctxS : dget context s = Option.none)
    (hctxG : dget context G = Option.none)
    (hlast_loc : last_local_named s n ms = Option.some mloc)
    (hlast_glob : last_pkg_named P n ms = Option.some mglob)
    (hname : ∀ m ∈ ms, m.name ≠ s ∧ m.name ≠ G) :
    dget R n = Option.some (CtxVal.mac mloc.unique_id) ∧
    (∃ dS, dget R s = Option.some (CtxVal.ns dS) ∧
        dget dS n = Option.some mloc.unique_id) ∧
    (∃ dG, dget R G = Option.some (CtxVal.ns dG) ∧
        dget dG n = Option.some mglob.unique_id) := by
  have hGs : G ≠ s := fun h => hsP (h ▸ hGP)
  -- unpack `add_macros` into the loop and the two flat merge passes
  rw [add_macros] at hok
  cases hloop : add_macros_loop P G s ms context [] [] with
  | error e => rw [hloop] at hok; exact absurd hok (by simp)
  | ok t =>
    obtain ⟨c1, g1, l1⟩ := t
    rw [hloop] at hok
    simp only [Except.ok.injEq] at hok
    obtain ⟨hg1, hl1⟩ := add_macros_loop_maps P G s ms context [] [] c1 g1 l1 hloop
    simp only [List.nil_append] at hg1 hl1
    -- the final context is c1 updated with the flattened merge entries
    have hR : R = dupd c1
        ((global_entries P s ms ++ local_entries s ms).map
          (fun e => (e.1, CtxVal.mac e.2))) := by
      rw [← hok, ctx_update_foldl, List.flatten_append, hg1, hl1,
        global_maps_join, local_maps_join, mac_foldl_as_dupd]
    have hdget : ∀ k, dget R k =
        match (lastVal (global_entries P s ms ++ local_entries s ms) k).map
            CtxVal.mac with
        | Option.some v => Option.some v
        | Option.none => dget c1 k := by
      intro k
      rw [hR, dget_dupd, lastVal_map_mac]
      cases lastVal (global_entries P s ms ++ local_entries s ms) k <;> rfl
    -- no merged macro short name collides with the two namespace keys
    have hflatkey : ∀ k, (∀ m ∈ ms, m.name ≠ k) →
        lastVal (global_entries P s ms ++ local_entries s ms) k = Option.none := by
      intro k hk
      refine lastVal_none_of_no_key _ k ?_
      intro e he
      rcases List.mem_append.mp he with hge | hle
      · obtain ⟨m, hm, hem⟩ := mem_global_entries P s ms e hge
        rw [hem]; exact hk m hm
      · obtain ⟨m, hm, hem⟩ := mem_local_entries s ms e hle
        rw [hem]; exact hk m hm
    refine ⟨?_, ?_, ?_⟩
    -- 1. the flat top-level binding of n is the local generator
    · have hflat : lastVal (global_entries P s ms ++ local_entries s ms) n =
          Option.some mloc.unique_id := by
        rw [lastVal_append, lastVal_local_entries, hlast_loc]
        rfl
      rw [hdget n, hflat]
      rfl
    -- 2. the local generator stays reachable under the search package key
    · have hnone := hflatkey s (fun m hm => (hname m hm).1)
      have hRs : dget R s = dget c1 s := by rw [hdget s, hnone]; rfl
      have hc1s := add_macros_loop_ns P G s ms context [] [] c1 g1 l1 s hloop
        (Or.inl hctxS)
      rw [hctxS] at hc1s
      have hlv : lastVal (ns_entries P G s ms) n = Option.some mloc.unique_id := by
        rw [lastVal_ns_entries_search P G s n ms hsP hGs, hlast_loc]; rfl
      cases hes : ns_entries P G s ms with
      | nil => rw [hes] at hlv; exact absurd hlv (by simp [lastVal])
      | cons e0 es' =>
        rw [hes] at hc1s hlv
        refine ⟨dupd [] (e0 :: es'), ?_, ?_⟩
        · rw [hRs, hc1s]; rfl
        · rw [dget_dupd, hlv]
    -- 3. the built-in generator stays reachable under the global-project key
    · have hnone := hflatkey G (fun m hm => (hname m hm).2)
      have hRG : dget R G = dget c1 G := by rw [hdget G, hnone]; rfl
      have hc1G := add_macros_loop_ns P G s ms context [] [] c1 g1 l1 G hloop
        (Or.inl hctxG)
      rw [hctxG] at hc1G
      have hlv : lastVal (ns_entries P G G ms) n = Option.some mglob.unique_id := by
        rw [lastVal_ns_entries_global P G n ms hGP, hlast_glob]; rfl
      cases hes : ns_entries P G G ms with
      | nil => rw [hes] at hlv; exact absurd hlv (by simp [lastVal])
      | cons e0 es' =>
        rw [hes] at hc1G hlv
        refine ⟨dupd [] (e0 :: es'), ?_, ?_⟩
        · rw [hRG, hc1G]; rfl
        · rw [dget_dupd, hlv]
/-- Witness for C1 on a concrete manifest: a built-in `dbt` macro and a
local `my_project` macro both named `generate_alias`. -/
theorem add_macros_local_wins_both_namespaced_witness :
    dget exR "generate_alias" =
      Option.some (CtxVal.mac "macro.my_project.generate_alias") ∧
    (∃ dS, dget exR "my_project" = Option.some (CtxVal.ns dS) ∧
        dget dS "generate_alias" = Option.some "macro.my_project.generate_alias") ∧
    (∃ dG, dget exR "dbt" = Option.some (CtxVal.ns dG) ∧
        dget dG "generate_alias" = Option.some "macro.dbt.generate_alias") :=
  add_macros_local_wins_both_namespaced exP "dbt" "my_project" "generate_alias"
    exCtx exMs exMloc exMglob exR rfl (by decide) (by decide) rfl rfl
    (by decide) (by decide) (by decide)
/-- C2: `var(x)` answers from the merged `local_vars` in which CLI-style
overrides were merged last, so an override wins even over a local model
variable of the same name; with no override the local value answers; and
with neither and no default, a compilation error is raised whose message is
the `UndefinedVarError` format naming the variable, the model, and the
pretty-printed dump of the whole locally visible variable mapping, with the
error attributed to the model. -/
theorem var_call_precedence_and_missing
    (render_str : String → String) (pretty_dict : VarDict → String)
    (model : VarModel) (overrides : VarDict) (x : String) (d : Option PyVal)
    (hnd : (overrides.map Prod.fst).Nodup) :
    (∀ w, dget overrides x = Option.some w →
      var_call render_str pretty_dict (Option.some model) overrides x d =
        Except.ok (render_if_str render_str w)) ∧
    (dget overrides x = Option.none →
      ∀ w, dget model.local_vars x = Option.some w →
        var_call render_str pretty_dict (Option.some model) overrides x d =
          Except.ok (render_if_str render_str w)) ∧
    (dget overrides x = Option.none → dget model.local_vars x = Option.none →
      var_call render_str pretty_dict (Option.some model) overrides x Option.none =
        Except.error ⟨missing_var_msg x model.name
            (pretty_dict (var_local_vars (Option.some model) overrides)),
          Option.some model⟩) := by
  have hmerged : ∀ k, dget (var_local_vars (Option.some model) overrides) k =
      match dget overrides k with
      | Option.some w => Option.some w
      | Option.none => dget model.local_vars k := by
    intro k
    rw [var_local_vars, merge, dget_dupd, lastVal_eq_dget_of_nodup overrides k hnd]
    cases dget overrides k <;> rfl
  refine ⟨?_, ?_, ?_⟩
  · intro w hov
    have hm := hmerged x
    simp only [hov] at hm
    rw [var_call.eq_def, hm]
  · intro hov w hlv
    have hm := hmerged x
    simp only [hov, hlv] at hm
    rw [var_call.eq_def, hm]
  · intro hov hlv
    have hm := hmerged x
    simp only [hov, hlv] at hm
    rw [var_call.eq_def, hm]
    rfl
/-- Witness for C2 on concrete data: `x` is overridden and locally declared
(override wins), `y` is only local, `z` is in neither mapping. -/
theorem var_call_precedence_and_missing_witness :
    var_call ex_render ex_pretty (Option.some ex_model) ex_overrides "x"
        Option.none = Except.ok (PyVal.str "cli_x") ∧
    var_call ex_render ex_pretty (Option.some ex_model) ex_overrides "y"
        Option.none = Except.ok (PyVal.int 1) ∧
    var_call ex_render ex_pretty (Option.some ex_model) ex_overrides "z"
        Option.none = Except.error ⟨missing_var_msg "z" "my_model"
          (ex_pretty (var_local_vars (Option.some ex_model) ex_overrides)),
        Option.some ex_model⟩ :=
  ⟨(var_call_precedence_and_missing ex_render ex_pretty ex_model ex_overrides
      "x" Option.none (by decide)).1 (PyVal.str "cli_x") rfl,
   (var_call_precedence_and_missing ex_render ex_pretty ex_model ex_overrides
      "y" Option.none (by decide)).2.1 rfl (PyVal.int 1) rfl,
   (var_call_precedence_and_missing ex_render ex_pretty ex_model ex_overrides
      "z" Option.none (by decide)).2.2 rfl rfl⟩
/-- C3: a macro body that raises the early-return signal (`MacroReturn`)
carrying value `v` makes `call_macro` return `v` as a normal successful
result, in both the base generator and the node-bound `MacroGenerator`. -/
theorem call_macro_early_return {C V : Type} (c : C) (v : V) (node : Node) :
    call_macro_base (Option.some c) (MacroOutcome.macroReturn v) = Except.ok v ∧
    call_macro_mg node (Option.some c) (MacroOutcome.macroReturn v) = Except.ok v :=
  ⟨rfl, rfl⟩
/-- C4: under `MacroGenerator.exception_handler`, a `TypeError` or
`TemplateRuntimeError` from the engine becomes a compilation failure
carrying the original message and the generator's node (with a fresh empty
caller stack), while a `CompilationException` bubbling through gets the
generator's node appended to its stack before being re-raised — so nested
macro calls accumulate caller frames behind the innermost node. -/
theorem mg_exception_wrapping {C V : Type} (c : C) (node : Node) (m : String)
    (e : CompilationError) :
    call_macro_mg (V := V) node (Option.some c) (MacroOutcome.typeError m) =
      Except.error (DbtError.compilation ⟨m, Option.some node, []⟩) ∧
    call_macro_mg (V := V) node (Option.some c)
        (MacroOutcome.templateRuntimeError m) =
      Except.error (DbtError.compilation ⟨m, Option.some node, []⟩) ∧
    call_macro_mg (V := V) node (Option.some c) (MacroOutcome.compilationError e) =
      Except.error (DbtError.compilation ⟨e.msg, e.node, e.stack ++ [node]⟩) :=
  ⟨rfl, rfl, rfl⟩
/-- C8: with no bound context, `call_macro` raises the internal
(programming-error) exception whatever the macro would have done — before
any lookup or execution — and that error kind is distinct from the
user-facing compilation kind. -/
theorem call_macro_none_context {C V : Type} (run : MacroOutcome V) (node : Node) :
    call_macro_base (C := C) Option.none run =
      Except.error (DbtError.internal "Context is still None in call_macro!") ∧
    call_macro_mg (C := C) node Option.none run =
      Except.error (DbtError.internal "Context is still None in call_macro!") ∧
    (∀ e : CompilationError,
      DbtError.internal "Context is still None in call_macro!" ≠
        DbtError.compilation e) :=
  ⟨rfl, rfl, fun _ h => nomatch h⟩
/-- Counterexample to C5: after the capture placeholder for `foo` has been
extended by accessing `.bar`, forcing it in a boolean context returns the
value `False` (inherited from the engine's permissive `Undefined`), and
iterating it yields an empty sequence — neither raises any failure at all,
let alone one naming `bar` and the node. -/
theorem capture_bool_force_returns_false :
    capture_getattr (mkCapture capture_demo_node "foo") "bar" =
      Except.ok ⟨capture_demo_node, "foo", "bar", "foo"⟩ ∧
    capture_force_bool ⟨capture_demo_node, "foo", "bar", "foo"⟩ =
      Except.ok false ∧
    capture_force_iter ⟨capture_demo_node, "foo", "bar", "foo"⟩ =
      Except.ok [] := by
  refine ⟨?_, rfl, rfl⟩
  rw [capture_getattr, if_neg (by decide)]
  rfl
/-- C5 as amended: the capture placeholder never resolves to a real value
through attribute, subscript or call chains, and deep-copying it raises a
compilation failure naming the last accessed segment and the node under
analysis in the engine's own message format; but boolean coercion returns
`False` and iteration yields an empty sequence (the permissive engine
`Undefined` behavior, which `ParserMacroCapture` does not override), without
raising. -/
theorem capture_forcing_semantics (n : Node) (pn nm un : String) :
    capture_deepcopy ⟨n, pn, nm, un⟩ =
      Except.error (DbtError.compilation
        ⟨"'" ++ nm ++ "' is undefined", Option.some n, []⟩) ∧
    capture_force_bool ⟨n, pn, nm, un⟩ = Except.ok false ∧
    capture_force_iter ⟨n, pn, nm, un⟩ = Except.ok [] :=
  ⟨rfl, rfl, rfl⟩
/-- C7: accessing any attribute other than the guarded internal names on a
capture placeholder slides the recorded path — the previously unresolved
segment becomes the package qualifier and the accessed attribute becomes the
name — and yields the placeholder continuing the chain; and calling the
placeholder with any arguments returns the placeholder itself rather than
raising. -/
theorem capture_getattr_extends_path (c : Capture) (attr : String)
    (args : List PyVal) (h1 : attr ≠ "name") (h2 : _is_dunder_name attr = false) :
    capture_getattr c attr =
      Except.ok ⟨c.node, c.name, attr, c.undefined_name⟩ ∧
    capture_call c args = c := by
  refine ⟨?_, rfl⟩
  rw [capture_getattr, if_neg (by simp [h1, h2])]
/-- Witness for C7: the chain `dbt_utils.surrogate_key(...)` on a fresh
placeholder. -/
theorem capture_getattr_extends_path_witness :
    capture_getattr (mkCapture capture_demo_node "dbt_utils") "surrogate_key" =
      Except.ok ⟨capture_demo_node, "dbt_utils", "surrogate_key", "dbt_utils"⟩ ∧
    capture_call (mkCapture capture_demo_node "dbt_utils") [PyVal.str "id"] =
      mkCapture capture_demo_node "dbt_utils" :=
  capture_getattr_extends_path (mkCapture capture_demo_node "dbt_utils")
    "surrogate_key" [PyVal.str "id"] (by decide) (by decide)
/-- Counterexample to C9: `tojson` on an unserializable value (a Python
set): the stdlib encoder fails with `TypeError`, which the
`except ValueError` clause does not catch, so the supplied default is NOT
returned and the error propagates. -/
theorem tojson_type_error_propagates :
    tojson (PyVal.set []) (PyVal.str "fallback") =
      Except.error (JsonError.typeError
        "Object of type set is not JSON serializable") := rfl
/-- C9 as amended: `fromjson` returns the supplied default whenever decoding
fails — decode failures are `ValueError`s (`json.JSONDecodeError`), which
the handler catches; `tojson` returns the default only when encoding fails
with a `ValueError` (e.g. a circular reference), while encoding failures
signalled as `TypeError` (unserializable values) propagate to the caller. -/
theorem json_fallback_amended (loads : String → Except JsonError PyVal)
    (hloads : ∀ s m, loads s ≠ Except.error (JsonError.typeError m)) :
    (∀ s d e, loads s = Except.error e → fromjson loads s d = Except.ok d) ∧
    (∀ v d m, json_dumps v = Except.error (JsonError.valueError m) →
      tojson v d = Except.ok d) ∧
    (∀ v d m, json_dumps v = Except.error (JsonError.typeError m) →
      tojson v d = Except.error (JsonError.typeError m)) := by
  refine ⟨?_, ?_, ?_⟩
  · intro s d e h
    cases e with
    | typeError m => exact absurd h (hloads s m)
    | valueError m => rw [fromjson, h]
  · intro v d m h
    rw [tojson, h]
  · intro v d m h
    rw [tojson, h]
/-- Witness for C9 as amended: a failing decode falls back to the default;
an unserializable encode propagates its `TypeError`. -/
theorem json_fallback_amended_witness :
    fromjson loads_fail "not json" (PyVal.int 3) = Except.ok (PyVal.int 3) ∧
    tojson (PyVal.set []) (PyVal.int 0) =
      Except.error (JsonError.typeError
        "Object of type set is not JSON serializable") := by
  have h := json_fallback_amended loads_fail
    (by intro s m hc; simp [loads_fail] at hc)
  exact ⟨h.1 "not json" (PyVal.int 3) _ rfl,
         h.2.2 (PyVal.set []) (PyVal.int 0) _ rfl⟩
/-- C10: for a name absent from the environment, `env_var` with an explicit
default of `None` raises the "Env var required but not provided" undefined
error exactly as with no default (the two are the same Python value, and the
guard is `default is not None`), and `env_var` can never return `None` as a
value. -/
theorem env_var_none_default_raises (env : List (String × String)) (var : String)
    (h : dget env var = Option.none) :
    env_var env var PyVal.none =
      Except.error (DbtError.undefined
        ("Env var required but not provided: '" ++ var ++ "'")) ∧
    (∀ d, env_var env var d ≠ Except.ok PyVal.none) := by
  constructor
  · rw [env_var, h]
  · intro d hc
    cases d <;> simp [env_var, h] at hc
/-- Witness for C10 at a concrete environment missing `MISSING_VAR`. -/
theorem env_var_none_default_raises_witness :
    env_var [("HOME", "/root")] "MISSING_VAR" PyVal.none =
      Except.error (DbtError.undefined
        "Env var required but not provided: 'MISSING_VAR'") ∧
    (∀ d, env_var [("HOME", "/root")] "MISSING_VAR" d ≠ Except.ok PyVal.none) :=
  env_var_none_default_raises [("HOME", "/root")] "MISSING_VAR" rfl
theorem blocks_raw_append (a b : List Block) :
    blocks_raw (a ++ b) = blocks_raw a ++ blocks_raw b := by
  induction a with
  | nil => simp [blocks_raw, String.empty_append]
  | cons x xs ih =>
    simp only [List.cons_append, blocks_raw, List.append_eq, ih,
      String.append_assoc]
theorem blocks_raw_flush (out : List Block) (acc : String) :
    blocks_raw (flush_data true out acc) = blocks_raw out ++ acc := by
  rw [flush_data]
  by_cases h : acc = ""
  · simp [h, String.append_empty]
  · simp only [h, ne_eq, not_false_eq_true, and_true, true_and, if_true,
      blocks_raw_append, blocks_raw, Block.raw, String.append_empty]
theorem lex_go_roundtrip (allowed : List String) (ts : List Tok) :
    ∀ (acc : String) (st : Option (String × String × String)) (out : List Block)
      (bs : List Block),
      lex_go allowed true ts acc st out = Except.ok bs →
      (st.isSome = true → acc = "") →
      blocks_raw bs = blocks_raw out ++ (acc ++ (open_raw st ++ raw_of ts)) := by
  induction ts with
  | nil =>
    intro acc st out bs h hacc
    cases st with
    | none =>
      simp only [lex_go, Except.ok.injEq] at h
      rw [← h, blocks_raw_flush]
      simp [open_raw, raw_of, String.append_empty]
    | some p => exact absurd h (by simp [lex_go])
  | cons t rest ih =>
    intro acc st out bs h hacc
    cases st with
    | none =>
      cases t with
      | tag name bname raw =>
        simp only [lex_go] at h
        by_cases hall : name ∈ allowed
        · simp only [hall, if_true] at h
          have := ih "" (Option.some (name, bname, raw)) (flush_data true out acc)
            bs h (fun _ => rfl)
          rw [this, blocks_raw_flush]
          simp [open_raw, raw_of, Tok.raw, String.append_assoc,
            String.empty_append]
        · simp only [hall, if_false] at h
          have := ih (acc ++ raw) Option.none out bs h (by simp)
          rw [this]
          simp [open_raw, raw_of, Tok.raw, String.append_assoc,
            String.empty_append]
      | text s =>
        simp only [lex_go] at h
        have := ih (acc ++ s) Option.none out bs h (by simp)
        rw [this]
        simp [open_raw, raw_of, Tok.raw, String.append_assoc, String.empty_append]
      | comment s =>
        simp only [lex_go] at h
        have := ih (acc ++ s) Option.none out bs h (by simp)
        rw [this]
        simp [open_raw, raw_of, Tok.raw, String.append_assoc, String.empty_append]
      | quoted s =>
        simp only [lex_go] at h
        have := ih (acc ++ s) Option.none out bs h (by simp)
        rw [this]
        simp [open_raw, raw_of, Tok.raw, String.append_assoc, String.empty_append]
    | some p =>
      obtain ⟨n1, bn1, sp⟩ := p
      have hacc0 : acc = "" := hacc rfl
      subst hacc0
      cases t with
      | tag name bname raw =>
        simp only [lex_go] at h
        by_cases hend : name = "end" ++ n1
        · simp only [hend, if_true] at h
          have := ih "" Option.none
            (out ++ [Block.tag ⟨n1, bn1, sp ++ raw⟩]) bs h (by simp)
          rw [this, blocks_raw_append]
          simp [blocks_raw, Block.raw, open_raw, raw_of, Tok.raw,
            String.append_assoc, String.empty_append, String.append_empty]
        · simp only [hend, if_false] at h
          by_cases hall : name ∈ allowed
          · rw [if_pos hall] at h
            exact absurd h (by simp)
          · rw [if_neg hall] at h
            have := ih "" (Option.some (n1, bn1, sp ++ raw)) out bs h
              (fun _ => rfl)
            rw [this]
            simp [open_raw, raw_of, Tok.raw, String.append_assoc,
              String.empty_append]
      | text s =>
        simp only [lex_go] at h
        have := ih "" (Option.some (n1, bn1, sp ++ s)) out bs h (fun _ => rfl)
        rw [this]
        simp [open_raw, raw_of, Tok.raw, String.append_assoc, String.empty_append]
      | comment s =>
        simp only [lex_go] at h
        have := ih "" (Option.some (n1, bn1, sp ++ s)) out bs h (fun _ => rfl)
        rw [this]
        simp [open_raw, raw_of, Tok.raw, String.append_assoc, String.empty_append]
      | quoted s =>
        simp only [lex_go] at h
        have := ih "" (Option.some (n1, bn1, sp ++ s)) out bs h (fun _ => rfl)
        rw [this]
        simp [open_raw, raw_of, Tok.raw, String.append_assoc, String.empty_append]
/-- C6: for every source whose recognized blocks all close properly (the
extraction succeeds), `extract_toplevel_blocks` with raw-data collection
enabled returns blocks whose raw spans concatenate, in order, exactly back
to the original source text. -/
theorem extract_toplevel_blocks_roundtrip (allowed : List String)
    (data : List Tok) (bs : List Block)
    (h : extract_toplevel_blocks data allowed true = Except.ok bs) :
    blocks_raw bs = raw_of data := by
  have := lex_go_roundtrip allowed data "" Option.none [] bs h (by simp)
  rw [this]
  simp [blocks_raw, open_raw, String.empty_append]
/-- Witness for C6 on a concrete source: raw data, one macro block whose
body holds a quoted tag-lookalike, a trailing comment — the extraction
succeeds and the blocks' spans rebuild the source. -/
theorem extract_toplevel_blocks_roundtrip_witness :
    extract_toplevel_blocks exToks ["macro", "materialization", "docs"] true =
      Except.ok exBlocks ∧
    blocks_raw exBlocks = raw_of exToks :=
  ⟨rfl, extract_toplevel_blocks_roundtrip ["macro", "materialization", "docs"]
    exToks exBlocks rfl⟩
end Dbt
